import Mathlib

/-!
Shallow embedding of `distributed/new_features/data/dataset.py` from the
LibRecommender repository: the sparse-feature indexing subsystem
(`Dataset`, `DatasetPure`, `DatasetFeat`).

Raw categorical values are modelled as natural numbers (any totally ordered
value domain works the same way for `np.unique` / `np.searchsorted`).
A pandas DataFrame is modelled as a list of named columns.  numpy arrays
become lists; the sparse index matrix is represented column-wise (the
Python code also fills it column by column).  Exceptions become an
`Except` monad over an explicit error type.  The class-level mutable
attributes `sparse_unique_vals`, `user_indices`, `item_indices` become an
explicit `DatasetState` threaded through the classmethods.
-/

namespace LibRec

abbrev Value := Nat

instance {ε α : Type} [DecidableEq ε] [DecidableEq α] : DecidableEq (Except ε α) := fun
  | .error e, .error f =>
      if h : e = f then .isTrue (by rw [h])
      else .isFalse (fun hh => h (Except.error.inj hh))
  | .error _, .ok _ => .isFalse (fun hh => Except.noConfusion hh)
  | .ok _, .error _ => .isFalse (fun hh => Except.noConfusion hh)
  | .ok a, .ok b =>
      if h : a = b then .isTrue (by rw [h])
      else .isFalse (fun hh => h (Except.ok.inj hh))

/-- A pandas DataFrame: named columns, each a list of cell values. -/
structure Frame where
  cols : List (String × List Value)
deriving DecidableEq, Repr

/-- The `data.columns` attribute. -/
def Frame.columns (d : Frame) : List String := d.cols.map Prod.fst

/-- Column selection `data[c]`; `none` models the pandas `KeyError` case. -/
def Frame.getCol (d : Frame) (c : String) : Option (List Value) :=
  (d.cols.find? (fun p => p.1 == c)).map Prod.snd

/-- Sub-frame selection `data[[c1, c2, ...]]` (used on columns known present). -/
def Frame.selectCols (d : Frame) (cs : List String) : Frame :=
  ⟨cs.filterMap (fun c => (d.getCol c).map (fun v => (c, v)))⟩

/-- Errors raised by dataset.py, by Python exception:
`schemaError` is the `KeyError("data must contain \x7b...\x7d column names")`
of `_check_col_names`; `keyError c` is a `KeyError` from looking up a missing
column of a DataFrame or a missing key of the `sparse_unique_vals` dict;
`invalidMode` is the `ValueError` of `_sparse_indices`. -/
inductive DataError
  | schemaError
  | keyError (col : String)
  | invalidMode
deriving DecidableEq, Repr

/-- Insert a value into a sorted duplicate-free list, keeping it sorted and
duplicate-free. -/
def insertUnique (v : Value) : List Value → List Value
  | [] => [v]
  | x :: xs =>
      if v < x then v :: x :: xs
      else if v = x then x :: xs
      else x :: insertUnique v xs

/-- Embedding of `np.unique`: the sorted list of distinct values. -/
def npUnique (xs : List Value) : List Value := xs.foldr insertUnique []

/-- Embedding of `np.searchsorted(unique, v)` (side left) for a sorted array
`unique`: the leftmost insertion point, i.e. the number of entries `< v`. -/
def searchsorted (unique : List Value) (v : Value) : Nat :=
  unique.countP (fun x => decide (x < v))

namespace Dataset

/-- Embedding of `Dataset.check_unknown` (dataset.py:64-68):
`diff = np.setdiff1d(values, uniques, assume_unique=True)` keeps, in order,
the entries of `values` not occurring in `uniques`;
`mask = np.in1d(values, uniques, invert=True)` flags, per entry of `values`,
absence from `uniques`. -/
def check_unknown (values uniques : List Value) : List Value × List Bool :=
  (values.filter (fun v => decide (v ∉ uniques)),
   values.map (fun v => decide (v ∉ uniques)))

/-- Embedding of `Dataset._sparse_indices` (dataset.py:70-80).  In test mode
the entries flagged by the unknown mask are overwritten with `len(unique)`
(`col_indices[not_in_mask] = len(unique)`); in train mode the raw
`searchsorted` result is returned unchecked; any other mode raises
`ValueError`. -/
def sparse_indices (values unique : List Value) (mode : String) :
    Except DataError (List Nat) :=
  if mode = "test" then
    let not_in_mask := (check_unknown values unique).2
    .ok (List.zipWith
      (fun v m => if m then unique.length else searchsorted unique v)
      values not_in_mask)
  else if mode = "train" then
    .ok (values.map (searchsorted unique))
  else
    .error .invalidMode

end Dataset

/-- The class-level `sparse_unique_vals` dict (dataset.py:18), as an
association list with Python-dict update semantics (assignment to an
existing key replaces its value in place, a new key is appended). -/
abbrev SparseUniqueVals := List (String × List Value)

/-- Dict lookup `sparse_unique_vals[col]`; `none` models the `KeyError`. -/
def svGet (d : SparseUniqueVals) (k : String) : Option (List Value) :=
  (d.find? (fun p => p.1 == k)).map Prod.snd

/-- Dict assignment `sparse_unique_vals[col] = v`. -/
def svSet : SparseUniqueVals → String → List Value → SparseUniqueVals
  | [], k, v => [(k, v)]
  | (k', v') :: rest, k, v =>
      if k' = k then (k, v) :: rest else (k', v') :: svSet rest k v

/-- The mutable class-level attributes of `Dataset` (dataset.py:18-20),
threaded explicitly through the classmethods. -/
structure DatasetState where
  sparse_unique_vals : SparseUniqueVals
  user_indices : Option (List Nat)
  item_indices : Option (List Nat)
deriving DecidableEq, Repr

/-- The fresh state at class-definition time: empty dict, `None` vectors. -/
def initState : DatasetState := ⟨[], none, none⟩

/-- The subclass on which the classmethods run.  `_get_feature_offset`
dispatches on `cls.__name__.lower().endswith("pure"/"feat")`
(dataset.py:57-59); for `DatasetPure` and `DatasetFeat` this is exactly
this two-valued distinction. -/
inductive Variant
  | pure
  | feat
deriving DecidableEq, Repr

namespace Dataset

/-- Embedding of `Dataset._check_col_names` (dataset.py:38-43): raises
`KeyError` unless all of "user", "item", "label" are column names. -/
def check_col_names (data : Frame) : Except DataError Unit :=
  if "user" ∈ data.columns ∧ "item" ∈ data.columns ∧ "label" ∈ data.columns
  then .ok () else .error .schemaError

/-- Embedding of `Dataset._set_sparse_unique_vals` (dataset.py:50-53):
for each sparse column, stores `np.unique(train_data[col])` in the
class-level dict.  Only the dict part of the state is touched. -/
def set_sparse_unique_vals (train_data : Frame) :
    SparseUniqueVals → List String → Except DataError SparseUniqueVals
  | suv, [] => .ok suv
  | suv, col :: rest =>
      match train_data.getCol col with
      | none => .error (.keyError col)
      | some vals =>
          set_sparse_unique_vals train_data (svSet suv col (npUnique vals)) rest

/-- The list comprehension of `Dataset._get_feature_offset`
(dataset.py:58/61): per sparse column, in order, the stored vocabulary
size — plus one reserved unknown slot in the feat variant — with the
dict lookup raising `KeyError` on a missing column. -/
def feature_sizes (variant : Variant) (suv : SparseUniqueVals) :
    List String → Except DataError (List Nat)
  | [] => .ok []
  | col :: rest =>
      match svGet suv col with
      | none => .error (.keyError col)
      | some u =>
          match feature_sizes variant suv rest with
          | .error e => .error e
          | .ok sizes =>
              .ok ((match variant with
                    | Variant.pure => u.length
                    | Variant.feat => u.length + 1) :: sizes)

/-- Embedding of `Dataset._get_feature_offset` (dataset.py:55-62):
per-column vocabulary sizes (plus one reserved unknown slot in the feat
variant), then `np.cumsum(np.array([0] + unique_values))`. -/
def get_feature_offset (variant : Variant) (suv : SparseUniqueVals)
    (sparse_col : List String) : Except DataError (List Nat) :=
  match feature_sizes variant suv sparse_col with
  | .error e => .error e
  | .ok unique_values => .ok (List.scanl (· + ·) 0 unique_values)

/-- The column loop of `Dataset._get_sparse_indices_matrix`
(dataset.py:86-93): per sparse column, reads the raw values and the stored
vocabulary, encodes them with `_sparse_indices`, records the encoding in
`cls.user_indices` / `cls.item_indices` when the column is "user" / "item",
and collects the (offset-free) encoded columns in order. -/
def sparse_cols_loop (suv : SparseUniqueVals) (data : Frame) (mode : String) :
    List String → Option (List Nat) → Option (List Nat) →
    Except DataError (List (List Nat) × Option (List Nat) × Option (List Nat))
  | [], ui, ii => .ok ([], ui, ii)
  | col :: rest, ui, ii =>
      match data.getCol col with
      | none => .error (.keyError col)
      | some col_values =>
          match svGet suv col with
          | none => .error (.keyError col)
          | some unique_values =>
              match sparse_indices col_values unique_values mode with
              | .error e => .error e
              | .ok col_indices =>
                  let ui' := if col = "user" then some col_indices else ui
                  let ii' := if col = "item" then some col_indices else ii
                  match sparse_cols_loop suv data mode rest ui' ii' with
                  | .error e => .error e
                  | .ok (cols, uFin, iFin) => .ok (col_indices :: cols, uFin, iFin)

/-- Embedding of `Dataset._get_sparse_indices_matrix` (dataset.py:82-96).
The matrix is represented column-wise (the Python code fills it column by
column); the final `sparse_indices + feature_offset[:-1]` adds the i-th
offset to every entry of column i, which `zipWith` does since
`feature_offset` has one more entry than there are columns. -/
def get_sparse_indices_matrix (variant : Variant) (st : DatasetState)
    (data : Frame) (sparse_col : List String) (mode : String) :
    Except DataError (DatasetState × List (List Nat)) :=
  match sparse_cols_loop st.sparse_unique_vals data mode sparse_col
      st.user_indices st.item_indices with
  | .error e => .error e
  | .ok (colsIdx, ui, ii) =>
      match get_feature_offset variant st.sparse_unique_vals sparse_col with
      | .error e => .error e
      | .ok feature_offset =>
          .ok ({ st with user_indices := ui, item_indices := ii },
               List.zipWith (fun c off => c.map (· + off)) colsIdx feature_offset)

end Dataset

/-- Modelled from the spec: `col_name2index` lives in
`distributed/new_features/utils/column_mapping.py`, which is not under src.
Spec 4.6: a lookup structure from logical column name to its position
within the sparse/dense matrices, partitioned by whether the column
describes a user, an item, or neither. -/
structure ColNameMapping where
  sparse_col : List (String × Nat)
  dense_col : List (String × Nat)
  user_sparse_col : List (String × Nat)
  user_dense_col : List (String × Nat)
  item_sparse_col : List (String × Nat)
  item_dense_col : List (String × Nat)
deriving DecidableEq, Repr

/-- Pairs each column name with its position in the list. -/
def positionsOf (cols : List String) : List (String × Nat) :=
  cols.enum.map (fun p => (p.2, p.1))

/-- Modelled from the spec: `col_name2index` (column_mapping.py, not under
src).  Spec 4.6: name-to-position maps for the sparse and dense column
lists, partitioned by membership in the user / item column lists. -/
def col_name2index (sparse_col : List String) (dense_col : Option (List String))
    (user_col : Option (List String)) (item_col : Option (List String)) :
    ColNameMapping :=
  let sp := positionsOf sparse_col
  let de := positionsOf (dense_col.getD [])
  let uc := user_col.getD []
  let ic := item_col.getD []
  { sparse_col := sp
    dense_col := de
    user_sparse_col := sp.filter (fun p => decide (p.1 ∈ uc))
    user_dense_col := de.filter (fun p => decide (p.1 ∈ uc))
    item_sparse_col := sp.filter (fun p => decide (p.1 ∈ ic))
    item_dense_col := de.filter (fun p => decide (p.1 ∈ ic)) }

/-- Positions of the first occurrence of each distinct entry of `keys`. -/
def firstOccurrences (keys : List Nat) : List Nat :=
  (List.range keys.length).filter
    (fun i => decide (∀ j, j < i → keys.get? j ≠ keys.get? i))

/-- Modelled from the spec: `construct_unique_item_feat`
(unique_features.py, not under src).  Spec 4.4: scans the training rows,
groups them by item identity (here: the entry at the first item-sparse
column position), and keeps per distinct item one canonical row — the
first occurrence in training order — of item-column sparse indices and of
dense values.  Matrices are column-wise, so rows are recovered by
transposition. -/
def construct_unique_item_feat (sparseM : List (List Nat))
    (denseV : Option (List (List Value))) (item_sparse_col_indices : List Nat) :
    List (List Nat) × Option (List (List Value)) :=
  let rows := sparseM.transpose
  let keys := rows.map
    (fun r => ((item_sparse_col_indices.head?.bind (fun i => r.get? i)).getD 0))
  let sel := firstOccurrences keys
  (sel.filterMap (fun i =>
      (rows.get? i).map (fun r => item_sparse_col_indices.filterMap r.get?)),
   denseV.map (fun dv =>
      let dRows := dv.transpose
      sel.filterMap (fun i => dRows.get? i)))

/-- Modelled from the spec: the `TransformedSet` class
(distributed/new_features/data/transformed.py, not under src).  Spec 3:
owns user-id indices, item-id indices, labels, sparse index matrix, dense
value matrix.  `DatasetPure` constructs it with three arguments
(dataset.py:111), `DatasetFeat` with five (dataset.py:175-176); the label
conversion `to_numpy(dtype=np.float32)` is value-preserving on the natural
number labels modelled here. -/
structure TransformedSet where
  user_indices : Option (List Nat)
  item_indices : Option (List Nat)
  labels : List Value
  sparse_indices : Option (List (List Nat))
  dense_values : Option (List (List Value))
deriving DecidableEq, Repr

/-- Modelled from the spec: the `DataInfo` class
(distributed/new_features/data/data_info.py, not under src).  Spec 3/6: it
records the column-name mapping, the user/item/label interaction table and
the optional per-item unique feature rows — the four constructor arguments
passed at dataset.py:176-178.  `DatasetPure.build_trainset` instead passes
the single placeholder argument `...` (Python `Ellipsis`, dataset.py:111),
modelled by the `ellipsis` constructor. -/
inductive DataInfo
  | ellipsis
  | mk (col_name_mapping : ColNameMapping) (interaction_data : Frame)
      (item_sparse_unique : Option (List (List Nat)))
      (item_dense_unique : Option (List (List Value)))
deriving DecidableEq, Repr

/-- The sparse column names a `DataInfo` records (via its column-name
mapping); the `Ellipsis` placeholder records none. -/
def DataInfo.sparseColumns : DataInfo → List String
  | .ellipsis => []
  | .mk m _ _ _ => m.sparse_col.map Prod.fst

/-- Embedding of `DatasetPure.build_trainset` (dataset.py:101-111).
`_check_subclass` always succeeds for `DatasetPure` and is omitted.  The
matrix is computed over the fixed column list `["user", "item"]` and then
discarded; the returned `TransformedSet` gets the class-level
`user_indices` / `item_indices` and the labels, and the `DataInfo` is the
literal placeholder `DataInfo(...)`. -/
def DatasetPure.build_trainset (st : DatasetState) (train_data : Frame)
    (sparse_col : List String) :
    Except DataError (DatasetState × TransformedSet × DataInfo) :=
  match Dataset.check_col_names train_data with
  | .error e => .error e
  | .ok _ =>
    match Dataset.set_sparse_unique_vals train_data st.sparse_unique_vals
        sparse_col with
    | .error e => .error e
    | .ok suv =>
      match Dataset.get_sparse_indices_matrix Variant.pure
          { st with sparse_unique_vals := suv } train_data
          ["user", "item"] "train" with
      | .error e => .error e
      | .ok (st2, _train_sparse_indices) =>
        match train_data.getCol "label" with
        | none => .error (.keyError "label")
        | some labels =>
            .ok (st2,
                 ⟨st2.user_indices, st2.item_indices, labels, none, none⟩,
                 DataInfo.ellipsis)

/-- The dense-column selection `train_data[dense_col].to_numpy()`
(dataset.py:166): the selected columns in order (column-wise), with a
`KeyError` on a missing column. -/
def dense_values_cols (data : Frame) : List String → Except DataError (List (List Value))
  | [] => .ok []
  | c :: cs =>
      match data.getCol c with
      | none => .error (.keyError c)
      | some v =>
          match dense_values_cols data cs with
          | .error e => .error e
          | .ok vs => .ok (v :: vs)

/-- The dense-values step of `DatasetFeat.build_trainset` (dataset.py:166):
`train_data[dense_col].to_numpy() if dense_col is not None else None`. -/
def feat_dense (train_data : Frame) :
    Option (List String) → Except DataError (Option (List (List Value)))
  | none => .ok none
  | some dc =>
      match dense_values_cols train_data dc with
      | .error e => .error e
      | .ok vs => .ok (some vs)

/-- Embedding of `DatasetFeat.build_trainset` (dataset.py:132-178).
`_check_subclass` always succeeds for `DatasetFeat` and is omitted.  Dense
values are the selected columns (column-wise), `None` when `dense_col` is
`None`; with `neg=True` the per-item unique feature rows are derived from
the item-sparse positions of the column mapping. -/
def DatasetFeat.build_trainset (st : DatasetState) (train_data : Frame)
    (sparse_col : List String) (dense_col : Option (List String))
    (user_col : Option (List String)) (item_col : Option (List String))
    (neg : Bool) :
    Except DataError (DatasetState × TransformedSet × DataInfo) :=
  match Dataset.check_col_names train_data with
  | .error e => .error e
  | .ok _ =>
    match Dataset.set_sparse_unique_vals train_data st.sparse_unique_vals
        sparse_col with
    | .error e => .error e
    | .ok suv =>
      match Dataset.get_sparse_indices_matrix Variant.feat
          { st with sparse_unique_vals := suv } train_data
          sparse_col "train" with
      | .error e => .error e
      | .ok (st2, train_sparse_indices) =>
        match feat_dense train_data dense_col with
        | .error e => .error e
        | .ok train_dense_values =>
          match train_data.getCol "label" with
          | none => .error (.keyError "label")
          | some labels =>
            let col_name_mapping :=
              col_name2index sparse_col dense_col user_col item_col
            let itemUnique :=
              if neg then
                let item_sparse_col_indices :=
                  col_name_mapping.item_sparse_col.map Prod.snd
                let p := construct_unique_item_feat train_sparse_indices
                  train_dense_values item_sparse_col_indices
                (some p.1, p.2)
              else (none, none)
            .ok (st2,
              ⟨st2.user_indices, st2.item_indices, labels,
               some train_sparse_indices, train_dense_values⟩,
              DataInfo.mk col_name_mapping
                (train_data.selectCols ["user", "item", "label"])
                itemUnique.1 itemUnique.2)

/-! Lemmas about the sorted-unique vocabulary and the ordered lookup. -/

theorem mem_insertUnique (v a : Value) (l : List Value) :
    a ∈ insertUnique v l ↔ a = v ∨ a ∈ l := by
  induction l with
  | nil => simp [insertUnique]
  | cons x xs ih =>
      by_cases h1 : v < x
      · simp only [insertUnique, if_pos h1, List.mem_cons]
      · by_cases h2 : v = x
        · subst h2
          simp only [insertUnique]
          rw [if_neg h1]
          simp only [if_true, List.mem_cons]
          tauto
        · simp only [insertUnique, if_neg h1, if_neg h2, List.mem_cons, ih]
          tauto

theorem pairwise_insertUnique (v : Value) (l : List Value)
    (h : l.Pairwise (· < ·)) : (insertUnique v l).Pairwise (· < ·) := by
  induction l with
  | nil => simp [insertUnique]
  | cons x xs ih =>
      rw [List.pairwise_cons] at h
      obtain ⟨hx, hxs⟩ := h
      by_cases h1 : v < x
      · simp only [insertUnique, if_pos h1]
        refine List.Pairwise.cons ?_ (List.Pairwise.cons hx hxs)
        intro b hb
        rcases List.mem_cons.mp hb with rfl | hb
        · exact h1
        · exact h1.trans (hx b hb)
      · by_cases h2 : v = x
        · subst h2
          simp only [insertUnique]
          rw [if_neg h1]
          simp only [if_true]
          exact List.Pairwise.cons hx hxs
        · have h3 : x < v :=
            Nat.lt_of_le_of_ne (Nat.le_of_not_lt h1) (fun he => h2 he.symm)
          simp only [insertUnique, if_neg h1, if_neg h2]
          refine List.Pairwise.cons ?_ (ih hxs)
          intro b hb
          rcases (mem_insertUnique v b xs).mp hb with rfl | hb
          · exact h3
          · exact hx b hb

theorem npUnique_pairwise (xs : List Value) : (npUnique xs).Pairwise (· < ·) := by
  induction xs with
  | nil => simp [npUnique]
  | cons x xs ih => exact pairwise_insertUnique x _ ih

theorem mem_npUnique (xs : List Value) (a : Value) : a ∈ npUnique xs ↔ a ∈ xs := by
  induction xs with
  | nil => simp [npUnique]
  | cons x xs ih =>
      show a ∈ insertUnique x (npUnique xs) ↔ _
      rw [mem_insertUnique]
      simp [List.mem_cons, ih]

theorem searchsorted_cons_self (v : Value) (xs : List Value)
    (h : ∀ b ∈ xs, v < b) : searchsorted (v :: xs) v = 0 := by
  simp only [searchsorted, List.countP_cons]
  have h0 : List.countP (fun x => decide (x < v)) xs = 0 :=
    List.countP_eq_zero.mpr (fun a ha => by
      simp only [decide_eq_true_eq]
      exact Nat.lt_asymm (h a ha))
  simp [h0]

theorem searchsorted_cons_of_lt (x v : Value) (xs : List Value) (h : x < v) :
    searchsorted (x :: xs) v = searchsorted xs v + 1 := by
  simp [searchsorted, List.countP_cons, h]

/-- On a strictly sorted vocabulary, `searchsorted` at a member value is a
valid position holding that value. -/
theorem searchsorted_getElem? (u : List Value) (hu : u.Pairwise (· < ·))
    (v : Value) (hv : v ∈ u) : u[searchsorted u v]? = some v := by
  induction u with
  | nil => cases hv
  | cons x xs ih =>
      rw [List.pairwise_cons] at hu
      obtain ⟨hx, hxs⟩ := hu
      rcases List.mem_cons.mp hv with rfl | hvs
      · rw [searchsorted_cons_self v xs hx]
        simp
      · have hxv : x < v := hx v hvs
        rw [searchsorted_cons_of_lt x v xs hxv]
        simpa using ih hxs hvs

/-- On a strictly sorted vocabulary, `searchsorted` at a member value is
its 0-indexed position (`indexOf`). -/
theorem searchsorted_indexOf (u : List Value) (hu : u.Pairwise (· < ·))
    (v : Value) (hv : v ∈ u) : searchsorted u v = u.indexOf v := by
  induction u with
  | nil => cases hv
  | cons x xs ih =>
      rw [List.pairwise_cons] at hu
      obtain ⟨hx, hxs⟩ := hu
      rcases List.mem_cons.mp hv with rfl | hvs
      · rw [searchsorted_cons_self v xs hx, List.indexOf_cons_self]
      · have hxv : x < v := hx v hvs
        rw [searchsorted_cons_of_lt x v xs hxv,
            List.indexOf_cons_ne xs (Nat.ne_of_lt hxv), ih hxs hvs]

theorem searchsorted_lt_length (u : List Value) (hu : u.Pairwise (· < ·))
    (v : Value) (hv : v ∈ u) : searchsorted u v < u.length := by
  have h := searchsorted_getElem? u hu v hv
  exact (List.getElem?_eq_some.mp h).1

/-! Lemmas about the `sparse_unique_vals` dict operations. -/

theorem svGet_svSet_self (d : SparseUniqueVals) (k : String) (v : List Value) :
    svGet (svSet d k v) k = some v := by
  induction d with
  | nil => simp [svSet, svGet]
  | cons p rest ih =>
      obtain ⟨k', v'⟩ := p
      by_cases h : k' = k
      · subst h
        simp [svSet, svGet]
      · have hbe : (k' == k) = false := beq_eq_false_iff_ne.mpr h
        simpa [svSet, if_neg h, svGet, hbe] using ih

theorem svGet_svSet_ne (d : SparseUniqueVals) (k k' : String) (v : List Value)
    (h : k' ≠ k) : svGet (svSet d k v) k' = svGet d k' := by
  have hbk : (k == k') = false := beq_eq_false_iff_ne.mpr (Ne.symm h)
  induction d with
  | nil => simp [svSet, svGet, hbk]
  | cons p rest ih =>
      obtain ⟨k0, v0⟩ := p
      by_cases h0 : k0 = k
      · subst h0
        simp [svSet, svGet, hbk]
      · simp only [svSet, if_neg h0, svGet]
        cases hbe : (k0 == k') with
        | true => simp [List.find?_cons_of_pos, hbe]
        | false => simpa [svGet, List.find?_cons_of_neg, hbe] using ih

theorem svSet_eq_of_get (d : SparseUniqueVals) (k : String) (v : List Value)
    (h : svGet d k = some v) : svSet d k v = d := by
  induction d with
  | nil => simp [svGet] at h
  | cons p rest ih =>
      obtain ⟨k', v'⟩ := p
      by_cases hk : k' = k
      · subst hk
        simp only [svGet, List.find?_cons_of_pos, beq_self_eq_true,
          Option.map_some'] at h
        have hv : v' = v := Option.some.inj h
        simp [svSet, hv]
      · have hbe : (k' == k) = false := beq_eq_false_iff_ne.mpr hk
        simp only [svGet, List.find?_cons_of_neg, hbe, Bool.false_eq_true,
          not_false_iff] at h
        simp only [svSet, if_neg hk]
        rw [ih h]

/-! Lemmas about `np.cumsum`, i.e. `List.scanl` over addition. -/

theorem scanl_add_succ (a : Nat) (sizes : List Nat) (i s : Nat)
    (hs : sizes[i]? = some s) :
    ∃ o, (List.scanl (· + ·) a sizes)[i]? = some o ∧
         (List.scanl (· + ·) a sizes)[i + 1]? = some (o + s) := by
  induction sizes generalizing a i with
  | nil => simp at hs
  | cons x xs ih =>
      cases i with
      | zero =>
          simp only [List.getElem?_cons_zero, Option.some.injEq] at hs
          subst hs
          exact ⟨a, by simp [List.scanl_cons], by simp [List.scanl_cons]⟩
      | succ i' =>
          simp only [List.getElem?_cons_succ] at hs
          obtain ⟨o, h1, h2⟩ := ih (a + x) i' hs
          exact ⟨o, by simpa [List.scanl_cons] using h1,
                 by simpa [List.scanl_cons] using h2⟩

theorem scanl_add_ge (a : Nat) (sizes : List Nat) (j o : Nat)
    (h : (List.scanl (· + ·) a sizes)[j]? = some o) : a ≤ o := by
  induction sizes generalizing a j with
  | nil =>
      cases j with
      | zero => simp at h; omega
      | succ j' => simp at h
  | cons x xs ih =>
      cases j with
      | zero => simp [List.scanl_cons] at h; omega
      | succ j' =>
          simp only [List.scanl_cons, List.singleton_append,
            List.getElem?_cons_succ] at h
          exact Nat.le_trans (Nat.le_add_right a x) (ih (a + x) j' h)

theorem scanl_add_mono (a : Nat) (sizes : List Nat) (i j oi oj : Nat)
    (hij : i ≤ j) (hi : (List.scanl (· + ·) a sizes)[i]? = some oi)
    (hj : (List.scanl (· + ·) a sizes)[j]? = some oj) : oi ≤ oj := by
  induction sizes generalizing a i j with
  | nil =>
      cases i with
      | zero =>
          cases j with
          | zero => simp at hi hj; omega
          | succ j' => simp at hj
      | succ i' => simp at hi
  | cons x xs ih =>
      cases i with
      | zero =>
          simp only [List.scanl_cons, List.singleton_append,
            List.getElem?_cons_zero, Option.some.injEq] at hi
          subst hi
          exact scanl_add_ge a (x :: xs) j oj hj
      | succ i' =>
          cases j with
          | zero => omega
          | succ j' =>
              simp only [List.scanl_cons, List.singleton_append,
                List.getElem?_cons_succ] at hi hj
              exact ih (a + x) i' j' (Nat.le_of_succ_le_succ hij) hi hj

/-! Lemmas about `_set_sparse_unique_vals`. -/

theorem setSUV_get_of_not_mem (data : Frame) (suv : SparseUniqueVals)
    (cols : List String) (s' : SparseUniqueVals)
    (h : Dataset.set_sparse_unique_vals data suv cols = .ok s')
    (c : String) (hc : c ∉ cols) : svGet s' c = svGet suv c := by
  induction cols generalizing suv with
  | nil =>
      simp only [Dataset.set_sparse_unique_vals, Except.ok.injEq] at h
      rw [← h]
  | cons c0 cs ih =>
      simp only [Dataset.set_sparse_unique_vals] at h
      cases hcol : data.getCol c0 with
      | none => rw [hcol] at h; exact Except.noConfusion h
      | some vals0 =>
          rw [hcol] at h
          have hne : c ≠ c0 := fun he => hc (he ▸ List.mem_cons_self c0 cs)
          have hcs : c ∉ cs := fun he => hc (List.mem_cons_of_mem c0 he)
          rw [ih _ h hcs, svGet_svSet_ne _ _ _ _ hne]

theorem setSUV_get_of_mem (data : Frame) (suv : SparseUniqueVals)
    (cols : List String) (s' : SparseUniqueVals)
    (h : Dataset.set_sparse_unique_vals data suv cols = .ok s')
    (c : String) (hc : c ∈ cols) :
    ∃ vals, data.getCol c = some vals ∧ svGet s' c = some (npUnique vals) := by
  induction cols generalizing suv with
  | nil => cases hc
  | cons c0 cs ih =>
      simp only [Dataset.set_sparse_unique_vals] at h
      cases hcol : data.getCol c0 with
      | none => rw [hcol] at h; exact Except.noConfusion h
      | some vals0 =>
          rw [hcol] at h
          by_cases hmem : c ∈ cs
          · exact ih _ h hmem
          · have hc0 : c = c0 := by
              rcases List.mem_cons.mp hc with he | he
              · exact he
              · exact absurd he hmem
            subst hc0
            refine ⟨vals0, hcol, ?_⟩
            rw [setSUV_get_of_not_mem data _ cs s' h c hmem, svGet_svSet_self]

theorem setSUV_idem (data : Frame) (suv : SparseUniqueVals)
    (cols : List String) (s' : SparseUniqueVals)
    (h : Dataset.set_sparse_unique_vals data suv cols = .ok s') :
    Dataset.set_sparse_unique_vals data s' cols = .ok s' := by
  induction cols generalizing suv with
  | nil =>
      simp only [Dataset.set_sparse_unique_vals, Except.ok.injEq] at h
      simp [Dataset.set_sparse_unique_vals]
  | cons c0 cs ih =>
      simp only [Dataset.set_sparse_unique_vals] at h ⊢
      cases hcol : data.getCol c0 with
      | none => rw [hcol] at h; exact Except.noConfusion h
      | some vals0 =>
          rw [hcol] at h
          have h' : Dataset.set_sparse_unique_vals data
              (svSet suv c0 (npUnique vals0)) cs = Except.ok s' := h
          have hget : svGet s' c0 = some (npUnique vals0) := by
            by_cases hmem : c0 ∈ cs
            · obtain ⟨vals, hv, hg⟩ := setSUV_get_of_mem data _ cs s' h' c0 hmem
              rw [hcol] at hv
              rw [hg, Option.some.inj hv]
            · rw [setSUV_get_of_not_mem data _ cs s' h' c0 hmem, svGet_svSet_self]
          show Dataset.set_sparse_unique_vals data
              (svSet s' c0 (npUnique vals0)) cs = Except.ok s'
          rw [svSet_eq_of_get s' c0 (npUnique vals0) hget]
          exact ih _ h'

theorem setSUV_error_keyError (data : Frame) (suv : SparseUniqueVals)
    (cols : List String) (e : DataError)
    (h : Dataset.set_sparse_unique_vals data suv cols = .error e) :
    ∃ c, e = .keyError c := by
  induction cols generalizing suv with
  | nil => simp [Dataset.set_sparse_unique_vals] at h
  | cons c0 cs ih =>
      simp only [Dataset.set_sparse_unique_vals] at h
      cases hcol : data.getCol c0 with
      | none =>
          rw [hcol] at h
          exact ⟨c0, (Except.error.inj h).symm⟩
      | some vals0 =>
          rw [hcol] at h
          exact ih _ h

/-! Lemmas about `_sparse_indices` and the column loop. -/

theorem sparse_indices_train (values unique : List Value) :
    Dataset.sparse_indices values unique "train" =
      .ok (values.map (searchsorted unique)) := by
  have h1 : ("train" : String) ≠ "test" := by decide
  simp [Dataset.sparse_indices, h1]

theorem sparse_indices_test (values unique : List Value) :
    Dataset.sparse_indices values unique "test" =
      .ok (List.zipWith
        (fun v m => if m then unique.length else searchsorted unique v)
        values (Dataset.check_unknown values unique).2) := by
  simp [Dataset.sparse_indices]

theorem sparse_indices_error_invalidMode (values unique : List Value)
    (mode : String) (e : DataError)
    (h : Dataset.sparse_indices values unique mode = .error e) :
    e = .invalidMode ∧ mode ≠ "train" ∧ mode ≠ "test" := by
  by_cases h1 : mode = "test"
  · rw [h1, sparse_indices_test] at h
    exact Except.noConfusion h
  · by_cases h2 : mode = "train"
    · rw [h2, sparse_indices_train] at h
      exact Except.noConfusion h
    · simp only [Dataset.sparse_indices, if_neg h1, if_neg h2] at h
      exact ⟨(Except.error.inj h).symm, h2, h1⟩

theorem loop_nil (suv : SparseUniqueVals) (data : Frame) (mode : String)
    (ui ii : Option (List Nat)) :
    Dataset.sparse_cols_loop suv data mode [] ui ii = .ok ([], ui, ii) := rfl

theorem loop_cons_ok (suv : SparseUniqueVals) (data : Frame) (mode : String)
    (col : String) (rest : List String) (ui ii : Option (List Nat))
    (m : List (List Nat)) (u v : Option (List Nat)) :
    Dataset.sparse_cols_loop suv data mode (col :: rest) ui ii = .ok (m, u, v) ↔
    ∃ colvals uvals enc mrest,
      data.getCol col = some colvals ∧ svGet suv col = some uvals ∧
      Dataset.sparse_indices colvals uvals mode = .ok enc ∧
      Dataset.sparse_cols_loop suv data mode rest
        (if col = "user" then some enc else ui)
        (if col = "item" then some enc else ii) = .ok (mrest, u, v) ∧
      m = enc :: mrest := by
  constructor
  · intro h
    simp only [Dataset.sparse_cols_loop] at h
    split at h
    · exact Except.noConfusion h
    rename_i colvals h1
    split at h
    · exact Except.noConfusion h
    rename_i uvals h2
    split at h
    · exact Except.noConfusion h
    rename_i enc h3
    split at h
    · exact Except.noConfusion h
    rename_i mrest uF iF h4
    have h5 := Except.ok.inj h
    refine ⟨colvals, uvals, enc, mrest, h1, h2, h3, ?_, ?_⟩
    · rw [h4, show uF = u from congrArg (fun p => p.2.1) h5,
          show iF = v from congrArg (fun p => p.2.2) h5]
    · rw [← show enc :: mrest = m from congrArg (fun p => p.1) h5]
  · rintro ⟨colvals, uvals, enc, mrest, h1, h2, h3, h4, rfl⟩
    simp only [Dataset.sparse_cols_loop, h1, h2, h3, h4]

theorem loop_length (suv : SparseUniqueVals) (data : Frame) (mode : String)
    (cols : List String) (ui ii : Option (List Nat)) (m : List (List Nat))
    (u v : Option (List Nat))
    (h : Dataset.sparse_cols_loop suv data mode cols ui ii = .ok (m, u, v)) :
    m.length = cols.length := by
  induction cols generalizing ui ii m u v with
  | nil =>
      rw [loop_nil] at h
      have := congrArg (fun p => p.1) (Except.ok.inj h)
      simp only at this
      rw [← this]
      rfl
  | cons c0 cs ih =>
      rw [loop_cons_ok] at h
      obtain ⟨colvals, uvals, enc, mrest, _, _, _, h4, rfl⟩ := h
      simpa using ih _ _ _ _ _ h4

theorem loop_getElem (suv : SparseUniqueVals) (data : Frame) (mode : String)
    (cols : List String) (ui ii : Option (List Nat)) (m : List (List Nat))
    (u v : Option (List Nat))
    (h : Dataset.sparse_cols_loop suv data mode cols ui ii = .ok (m, u, v))
    (i : Nat) (col : String) (hcol : cols[i]? = some col) :
    ∃ colvals uvals enc,
      data.getCol col = some colvals ∧ svGet suv col = some uvals ∧
      Dataset.sparse_indices colvals uvals mode = .ok enc ∧
      m[i]? = some enc := by
  induction cols generalizing ui ii m u v i with
  | nil => simp at hcol
  | cons c0 cs ih =>
      rw [loop_cons_ok] at h
      obtain ⟨colvals, uvals, enc, mrest, h1, h2, h3, h4, rfl⟩ := h
      cases i with
      | zero =>
          simp only [List.getElem?_cons_zero, Option.some.injEq] at hcol
          subst hcol
          exact ⟨colvals, uvals, enc, h1, h2, h3, by simp⟩
      | succ i' =>
          simp only [List.getElem?_cons_succ] at hcol
          obtain ⟨cv, uv, e2, g1, g2, g3, g4⟩ := ih _ _ _ _ _ h4 i' hcol
          exact ⟨cv, uv, e2, g1, g2, g3, by simpa using g4⟩

theorem loop_user_not_mem (suv : SparseUniqueVals) (data : Frame) (mode : String)
    (cols : List String) (ui ii : Option (List Nat)) (m : List (List Nat))
    (u v : Option (List Nat))
    (h : Dataset.sparse_cols_loop suv data mode cols ui ii = .ok (m, u, v))
    (hu : "user" ∉ cols) : u = ui := by
  induction cols generalizing ui ii m u v with
  | nil =>
      rw [loop_nil] at h
      exact (congrArg (fun p => p.2.1) (Except.ok.inj h)).symm
  | cons c0 cs ih =>
      rw [loop_cons_ok] at h
      obtain ⟨colvals, uvals, enc, mrest, _, _, _, h4, rfl⟩ := h
      have hne : ¬ c0 = "user" := fun he => hu (he ▸ List.mem_cons_self c0 cs)
      rw [if_neg hne] at h4
      exact ih _ _ _ _ _ h4 (fun he => hu (List.mem_cons_of_mem c0 he))

theorem loop_item_not_mem (suv : SparseUniqueVals) (data : Frame) (mode : String)
    (cols : List String) (ui ii : Option (List Nat)) (m : List (List Nat))
    (u v : Option (List Nat))
    (h : Dataset.sparse_cols_loop suv data mode cols ui ii = .ok (m, u, v))
    (hi : "item" ∉ cols) : v = ii := by
  induction cols generalizing ui ii m u v with
  | nil =>
      rw [loop_nil] at h
      exact (congrArg (fun p => p.2.2) (Except.ok.inj h)).symm
  | cons c0 cs ih =>
      rw [loop_cons_ok] at h
      obtain ⟨colvals, uvals, enc, mrest, _, _, _, h4, rfl⟩ := h
      have hne : ¬ c0 = "item" := fun he => hi (he ▸ List.mem_cons_self c0 cs)
      rw [if_neg hne] at h4
      exact ih _ _ _ _ _ h4 (fun he => hi (List.mem_cons_of_mem c0 he))

theorem loop_shift (suv : SparseUniqueVals) (data : Frame) (mode : String)
    (cols : List String) (ui1 ii1 ui2 ii2 : Option (List Nat))
    (m : List (List Nat)) (u1 v1 : Option (List Nat))
    (h : Dataset.sparse_cols_loop suv data mode cols ui1 ii1 = .ok (m, u1, v1)) :
    Dataset.sparse_cols_loop suv data mode cols ui2 ii2 =
      .ok (m, (if "user" ∈ cols then u1 else ui2),
              (if "item" ∈ cols then v1 else ii2)) := by
  induction cols generalizing ui1 ii1 ui2 ii2 m u1 v1 with
  | nil =>
      rw [loop_nil] at h
      obtain ⟨h5, h6, h7⟩ : m = [] ∧ u1 = ui1 ∧ v1 = ii1 := by
        have h' := Except.ok.inj h
        exact ⟨(congrArg (fun p => p.1) h').symm,
               (congrArg (fun p => p.2.1) h').symm,
               (congrArg (fun p => p.2.2) h').symm⟩
      subst h5
      rw [loop_nil]
      simp
  | cons c0 cs ih =>
      rw [loop_cons_ok] at h
      obtain ⟨colvals, uvals, enc, mrest, h1, h2, h3, h4, rfl⟩ := h
      rw [loop_cons_ok]
      refine ⟨colvals, uvals, enc, mrest, h1, h2, h3, ?_, rfl⟩
      rw [ih _ _ _ _ _ _ _ h4]
      have hu : (if "user" ∈ cs then u1 else if c0 = "user" then some enc else ui2)
          = (if "user" ∈ c0 :: cs then u1 else ui2) := by
        by_cases hm : "user" ∈ cs
        · rw [if_pos hm, if_pos (List.mem_cons_of_mem c0 hm)]
        · rw [if_neg hm]
          by_cases hc : c0 = "user"
          · rw [if_pos hc, if_pos (hc ▸ List.mem_cons_self c0 cs)]
            have := loop_user_not_mem _ _ _ _ _ _ _ _ _ h4 hm
            rw [this, if_pos hc]
          · rw [if_neg hc,
                if_neg (fun hmem => by
                  rcases List.mem_cons.mp hmem with he | he
                  · exact hc he.symm
                  · exact hm he)]
      have hv : (if "item" ∈ cs then v1 else if c0 = "item" then some enc else ii2)
          = (if "item" ∈ c0 :: cs then v1 else ii2) := by
        by_cases hm : "item" ∈ cs
        · rw [if_pos hm, if_pos (List.mem_cons_of_mem c0 hm)]
        · rw [if_neg hm]
          by_cases hc : c0 = "item"
          · rw [if_pos hc, if_pos (hc ▸ List.mem_cons_self c0 cs)]
            have := loop_item_not_mem _ _ _ _ _ _ _ _ _ h4 hm
            rw [this, if_pos hc]
          · rw [if_neg hc,
                if_neg (fun hmem => by
                  rcases List.mem_cons.mp hmem with he | he
                  · exact hc he.symm
                  · exact hm he)]
      rw [hu, hv]

theorem loop_error (suv : SparseUniqueVals) (data : Frame) (mode : String)
    (cols : List String) (ui ii : Option (List Nat)) (e : DataError)
    (h : Dataset.sparse_cols_loop suv data mode cols ui ii = .error e) :
    e = .invalidMode ∨ ∃ c, e = .keyError c := by
  induction cols generalizing ui ii with
  | nil => rw [loop_nil] at h; exact Except.noConfusion h
  | cons c0 cs ih =>
      simp only [Dataset.sparse_cols_loop] at h
      split at h
      · exact Or.inr ⟨c0, (Except.error.inj h).symm⟩
      rename_i colvals h1
      split at h
      · exact Or.inr ⟨c0, (Except.error.inj h).symm⟩
      rename_i uvals h2
      split at h
      · rename_i e' h3
        have h5 := (sparse_indices_error_invalidMode _ _ _ _ h3).1
        rw [← (Except.error.inj h)]
        exact Or.inl h5
      rename_i enc h3
      split at h
      · rename_i e' h4
        have he : e' = e := Except.error.inj h
        rw [he] at h4
        exact ih _ _ h4
      · exact Except.noConfusion h

/-! Lemmas about `_get_feature_offset`. -/

theorem feature_sizes_spec (variant : Variant) (suv : SparseUniqueVals)
    (cols : List String) (sizes : List Nat)
    (h : Dataset.feature_sizes variant suv cols = .ok sizes) :
    sizes.length = cols.length ∧
    ∀ (i : Nat) (col : String), cols[i]? = some col → ∃ u, svGet suv col = some u ∧
      sizes[i]? = some (u.length + (if variant = Variant.feat then 1 else 0)) := by
  induction cols generalizing sizes with
  | nil =>
      simp only [Dataset.feature_sizes, Except.ok.injEq] at h
      rw [← h]
      exact ⟨rfl, fun i col hcol => by simp at hcol⟩
  | cons c0 cs ih =>
      simp only [Dataset.feature_sizes] at h
      split at h
      · exact Except.noConfusion h
      rename_i u hu
      split at h
      · exact Except.noConfusion h
      rename_i rest_sizes hrest
      rw [← Except.ok.inj h]
      obtain ⟨ihlen, ihget⟩ := ih _ hrest
      refine ⟨by simp [ihlen], ?_⟩
      intro i col hcol
      cases i with
      | zero =>
          simp only [List.getElem?_cons_zero, Option.some.injEq] at hcol
          subst hcol
          refine ⟨u, hu, ?_⟩
          cases variant <;> simp
      | succ i' =>
          simp only [List.getElem?_cons_succ] at hcol ⊢
          exact ihget i' col hcol

theorem feature_sizes_error (variant : Variant) (suv : SparseUniqueVals)
    (cols : List String) (e : DataError)
    (h : Dataset.feature_sizes variant suv cols = .error e) :
    ∃ c, e = .keyError c := by
  induction cols generalizing e with
  | nil => exact Except.noConfusion h
  | cons c0 cs ih =>
      simp only [Dataset.feature_sizes] at h
      split at h
      · exact ⟨c0, (Except.error.inj h).symm⟩
      rename_i u hu
      split at h
      · rename_i e' he
        have h2 : e' = e := Except.error.inj h
        exact ih e (h2 ▸ he)
      · exact Except.noConfusion h

theorem get_feature_offset_ok (variant : Variant) (suv : SparseUniqueVals)
    (cols : List String) (offs : List Nat)
    (h : Dataset.get_feature_offset variant suv cols = .ok offs) :
    ∃ sizes, Dataset.feature_sizes variant suv cols = .ok sizes ∧
      offs = List.scanl (· + ·) 0 sizes := by
  simp only [Dataset.get_feature_offset] at h
  split at h
  · exact Except.noConfusion h
  rename_i sizes hs
  exact ⟨sizes, hs, (Except.ok.inj h).symm⟩

theorem get_feature_offset_error (variant : Variant) (suv : SparseUniqueVals)
    (cols : List String) (e : DataError)
    (h : Dataset.get_feature_offset variant suv cols = .error e) :
    ∃ c, e = .keyError c := by
  simp only [Dataset.get_feature_offset] at h
  split at h
  · rename_i e' he
    exact feature_sizes_error variant suv cols e ((Except.error.inj h) ▸ he)
  · exact Except.noConfusion h

theorem get_feature_offset_length (variant : Variant) (suv : SparseUniqueVals)
    (cols : List String) (offs : List Nat)
    (h : Dataset.get_feature_offset variant suv cols = .ok offs) :
    offs.length = cols.length + 1 := by
  obtain ⟨sizes, hs, rfl⟩ := get_feature_offset_ok variant suv cols offs h
  rw [List.length_scanl, (feature_sizes_spec variant suv cols sizes hs).1]

theorem get_feature_offset_zero (variant : Variant) (suv : SparseUniqueVals)
    (cols : List String) (offs : List Nat)
    (h : Dataset.get_feature_offset variant suv cols = .ok offs) :
    offs[0]? = some 0 := by
  obtain ⟨sizes, _, rfl⟩ := get_feature_offset_ok variant suv cols offs h
  exact List.getElem?_scanl_zero

/-- Per-column offset step: consecutive offsets differ by the stored
vocabulary size, plus one exactly in the feat variant. -/
theorem get_feature_offset_succ (variant : Variant) (suv : SparseUniqueVals)
    (cols : List String) (offs : List Nat)
    (h : Dataset.get_feature_offset variant suv cols = .ok offs)
    (i : Nat) (col : String) (hcol : cols[i]? = some col) :
    ∃ u oi, svGet suv col = some u ∧ offs[i]? = some oi ∧
      offs[i + 1]? = some (oi + (u.length + (if variant = Variant.feat then 1 else 0))) := by
  obtain ⟨sizes, hs, rfl⟩ := get_feature_offset_ok variant suv cols offs h
  obtain ⟨_, hget⟩ := feature_sizes_spec variant suv cols sizes hs
  obtain ⟨u, hu, hsize⟩ := hget i col hcol
  obtain ⟨o, ho, ho1⟩ := scanl_add_succ 0 sizes i _ hsize
  exact ⟨u, o, hu, ho, ho1⟩

theorem loop_user_mem (suv : SparseUniqueVals) (data : Frame) (mode : String)
    (cols : List String) (ui ii : Option (List Nat)) (m : List (List Nat))
    (u v : Option (List Nat))
    (h : Dataset.sparse_cols_loop suv data mode cols ui ii = .ok (m, u, v))
    (hmem : "user" ∈ cols) :
    ∃ uvals uu enc, data.getCol "user" = some uvals ∧
      svGet suv "user" = some uu ∧
      Dataset.sparse_indices uvals uu mode = .ok enc ∧ u = some enc := by
  induction cols generalizing ui ii m u v with
  | nil => cases hmem
  | cons c0 cs ih =>
      rw [loop_cons_ok] at h
      obtain ⟨colvals, uvals, enc, mrest, h1, h2, h3, h4, rfl⟩ := h
      by_cases hcs : "user" ∈ cs
      · exact ih _ _ _ _ _ h4 hcs
      · have hc0 : c0 = "user" := by
          rcases List.mem_cons.mp hmem with he | he
          · exact he.symm
          · exact absurd he hcs
        subst hc0
        have hu := loop_user_not_mem _ _ _ _ _ _ _ _ _ h4 hcs
        rw [if_pos rfl] at hu
        exact ⟨colvals, uvals, enc, h1, h2, h3, hu⟩

theorem loop_item_mem (suv : SparseUniqueVals) (data : Frame) (mode : String)
    (cols : List String) (ui ii : Option (List Nat)) (m : List (List Nat))
    (u v : Option (List Nat))
    (h : Dataset.sparse_cols_loop suv data mode cols ui ii = .ok (m, u, v))
    (hmem : "item" ∈ cols) :
    ∃ ivals iu enc, data.getCol "item" = some ivals ∧
      svGet suv "item" = some iu ∧
      Dataset.sparse_indices ivals iu mode = .ok enc ∧ v = some enc := by
  induction cols generalizing ui ii m u v with
  | nil => cases hmem
  | cons c0 cs ih =>
      rw [loop_cons_ok] at h
      obtain ⟨colvals, uvals, enc, mrest, h1, h2, h3, h4, rfl⟩ := h
      by_cases hcs : "item" ∈ cs
      · exact ih _ _ _ _ _ h4 hcs
      · have hc0 : c0 = "item" := by
          rcases List.mem_cons.mp hmem with he | he
          · exact he.symm
          · exact absurd he hcs
        subst hc0
        have hv := loop_item_not_mem _ _ _ _ _ _ _ _ _ h4 hcs
        rw [if_pos rfl] at hv
        exact ⟨colvals, uvals, enc, h1, h2, h3, hv⟩

/-! Lemmas about `_get_sparse_indices_matrix`. -/

theorem matrix_ok (variant : Variant) (st : DatasetState) (data : Frame)
    (sparse_col : List String) (mode : String) (st' : DatasetState)
    (m : List (List Nat))
    (h : Dataset.get_sparse_indices_matrix variant st data sparse_col mode =
      .ok (st', m)) :
    ∃ colsIdx ui ii offs,
      Dataset.sparse_cols_loop st.sparse_unique_vals data mode sparse_col
        st.user_indices st.item_indices = .ok (colsIdx, ui, ii) ∧
      Dataset.get_feature_offset variant st.sparse_unique_vals sparse_col =
        .ok offs ∧
      st' = { st with user_indices := ui, item_indices := ii } ∧
      m = List.zipWith (fun c off => c.map (· + off)) colsIdx offs := by
  simp only [Dataset.get_sparse_indices_matrix] at h
  split at h
  · exact Except.noConfusion h
  rename_i colsIdx ui ii hloop
  split at h
  · exact Except.noConfusion h
  rename_i offs hoffs
  have h5 := Except.ok.inj h
  exact ⟨colsIdx, ui, ii, offs, hloop, hoffs,
    (congrArg (fun p => p.1) h5).symm, (congrArg (fun p => p.2) h5).symm⟩

theorem matrix_error (variant : Variant) (st : DatasetState) (data : Frame)
    (sparse_col : List String) (mode : String) (e : DataError)
    (h : Dataset.get_sparse_indices_matrix variant st data sparse_col mode =
      .error e) :
    e = .invalidMode ∨ ∃ c, e = .keyError c := by
  simp only [Dataset.get_sparse_indices_matrix] at h
  split at h
  · rename_i e' hloop
    have he : e' = e := Except.error.inj h
    exact loop_error _ _ _ _ _ _ _ (he ▸ hloop)
  rename_i colsIdx ui ii hloop
  split at h
  · rename_i e' hoffs
    have he : e' = e := Except.error.inj h
    exact Or.inr (get_feature_offset_error _ _ _ _ (he ▸ hoffs))
  · exact Except.noConfusion h

theorem matrix_ok_intro (variant : Variant) (st : DatasetState) (data : Frame)
    (cols : List String) (mode : String) (colsIdx : List (List Nat))
    (ui ii : Option (List Nat)) (offs : List Nat)
    (hloop : Dataset.sparse_cols_loop st.sparse_unique_vals data mode cols
      st.user_indices st.item_indices = .ok (colsIdx, ui, ii))
    (hoffs : Dataset.get_feature_offset variant st.sparse_unique_vals cols =
      .ok offs) :
    Dataset.get_sparse_indices_matrix variant st data cols mode =
      .ok ({ st with user_indices := ui, item_indices := ii },
           List.zipWith (fun c off => c.map (· + off)) colsIdx offs) := by
  simp only [Dataset.get_sparse_indices_matrix, hloop, hoffs]

/-! Lemmas about the `build_trainset` orchestration. -/

theorem dense_values_cols_error (data : Frame) (cs : List String)
    (e : DataError) (h : dense_values_cols data cs = .error e) :
    ∃ c, e = .keyError c := by
  induction cs generalizing e with
  | nil => exact Except.noConfusion h
  | cons c0 cs ih =>
      simp only [dense_values_cols] at h
      split at h
      · exact ⟨c0, (Except.error.inj h).symm⟩
      rename_i v hv
      split at h
      · rename_i e' he
        have h2 : e' = e := Except.error.inj h
        exact ih e (h2 ▸ he)
      · exact Except.noConfusion h

theorem feat_dense_error (data : Frame) (dc : Option (List String))
    (e : DataError) (h : feat_dense data dc = .error e) :
    ∃ c, e = .keyError c := by
  cases dc with
  | none => exact Except.noConfusion h
  | some cs =>
      simp only [feat_dense] at h
      split at h
      · rename_i e' he
        have h2 : e' = e := Except.error.inj h
        exact dense_values_cols_error data cs e (h2 ▸ he)
      · exact Except.noConfusion h

theorem pure_build_ok (st : DatasetState) (data : Frame)
    (sparse_col : List String) (st' : DatasetState) (ts : TransformedSet)
    (di : DataInfo)
    (h : DatasetPure.build_trainset st data sparse_col = .ok (st', ts, di)) :
    ∃ suv mm labels,
      Dataset.check_col_names data = .ok () ∧
      Dataset.set_sparse_unique_vals data st.sparse_unique_vals sparse_col =
        .ok suv ∧
      Dataset.get_sparse_indices_matrix Variant.pure
        { st with sparse_unique_vals := suv } data ["user", "item"] "train" =
        .ok (st', mm) ∧
      data.getCol "label" = some labels ∧
      ts = ⟨st'.user_indices, st'.item_indices, labels, none, none⟩ ∧
      di = DataInfo.ellipsis := by
  simp only [DatasetPure.build_trainset] at h
  split at h
  · exact Except.noConfusion h
  rename_i u hcheck
  split at h
  · exact Except.noConfusion h
  rename_i suv hset
  split at h
  · exact Except.noConfusion h
  rename_i st2 mm hmat
  split at h
  · exact Except.noConfusion h
  rename_i labels hlab
  have h5 := Except.ok.inj h
  rw [Prod.mk.injEq, Prod.mk.injEq] at h5
  obtain ⟨hst, hts, hdi⟩ := h5
  subst hst
  exact ⟨suv, mm, labels, by cases u; exact hcheck, hset, hmat, hlab,
    hts.symm, hdi.symm⟩

theorem feat_build_ok (st : DatasetState) (data : Frame)
    (sparse_col : List String) (dense_col user_col item_col : Option (List String))
    (neg : Bool) (st' : DatasetState) (ts : TransformedSet) (di : DataInfo)
    (h : DatasetFeat.build_trainset st data sparse_col dense_col user_col
      item_col neg = .ok (st', ts, di)) :
    ∃ suv mm dv labels,
      Dataset.check_col_names data = .ok () ∧
      Dataset.set_sparse_unique_vals data st.sparse_unique_vals sparse_col =
        .ok suv ∧
      Dataset.get_sparse_indices_matrix Variant.feat
        { st with sparse_unique_vals := suv } data sparse_col "train" =
        .ok (st', mm) ∧
      feat_dense data dense_col = .ok dv ∧
      data.getCol "label" = some labels ∧
      ts = ⟨st'.user_indices, st'.item_indices, labels, some mm, dv⟩ ∧
      di = DataInfo.mk (col_name2index sparse_col dense_col user_col item_col)
        (data.selectCols ["user", "item", "label"])
        (if neg then
          some (construct_unique_item_feat mm dv
            ((col_name2index sparse_col dense_col user_col
              item_col).item_sparse_col.map Prod.snd)).1
         else none)
        (if neg then
          (construct_unique_item_feat mm dv
            ((col_name2index sparse_col dense_col user_col
              item_col).item_sparse_col.map Prod.snd)).2
         else none) := by
  simp only [DatasetFeat.build_trainset] at h
  split at h
  · exact Except.noConfusion h
  rename_i u hcheck
  split at h
  · exact Except.noConfusion h
  rename_i suv hset
  split at h
  · exact Except.noConfusion h
  rename_i st2 mm hmat
  split at h
  · exact Except.noConfusion h
  rename_i dv hdense
  split at h
  · exact Except.noConfusion h
  rename_i labels hlab
  have h5 := Except.ok.inj h
  rw [Prod.mk.injEq, Prod.mk.injEq] at h5
  obtain ⟨hst, hts, hdi⟩ := h5
  subst hst
  refine ⟨suv, mm, dv, labels, by cases u; exact hcheck, hset, hmat, hdense,
    hlab, hts.symm, ?_⟩
  rw [← hdi]
  cases neg <;> rfl

/-! Claim theorems. -/

/-- C1: for every sparse column and every value occurring in its training
data, train-mode encoding against the vocabulary that
`_set_sparse_unique_vals` built from that same data returns the 0-indexed
rank of the value in the sorted set of distinct training values (the
returned index is `indexOf` into the sorted-unique vocabulary, and the
vocabulary at that index holds the value back).  The encoder is a pure
function of its arguments, so repeated calls on the same inputs return
this same result. -/
theorem c1_train_mode_encodes_sorted_rank
    (data : Frame) (suv0 : SparseUniqueVals) (sparse_col : List String)
    (suv : SparseUniqueVals)
    (hset : Dataset.set_sparse_unique_vals data suv0 sparse_col = .ok suv)
    (col : String) (hcol : col ∈ sparse_col) :
    ∃ vals, data.getCol col = some vals ∧
      svGet suv col = some (npUnique vals) ∧
      Dataset.sparse_indices vals (npUnique vals) "train" =
        .ok (vals.map (fun v => (npUnique vals).indexOf v)) ∧
      ∀ v ∈ vals, (npUnique vals)[(npUnique vals).indexOf v]? = some v := by
  obtain ⟨vals, hv, hg⟩ := setSUV_get_of_mem data suv0 sparse_col suv hset col hcol
  refine ⟨vals, hv, hg, ?_, ?_⟩
  · rw [sparse_indices_train]
    congr 1
    refine List.map_congr_left ?_
    intro v hv2
    exact searchsorted_indexOf _ (npUnique_pairwise vals) v
      ((mem_npUnique vals v).mpr hv2)
  · intro v hv2
    have hvm : v ∈ npUnique vals := (mem_npUnique vals v).mpr hv2
    rw [← searchsorted_indexOf _ (npUnique_pairwise vals) v hvm]
    exact searchsorted_getElem? _ (npUnique_pairwise vals) v hvm

theorem c1_train_mode_encodes_sorted_rank_witness :
    ∃ vals, (Frame.mk [("age", [30, 20, 30])]).getCol "age" = some vals ∧
      svGet [("age", [20, 30])] "age" = some (npUnique vals) ∧
      Dataset.sparse_indices vals (npUnique vals) "train" =
        .ok (vals.map (fun v => (npUnique vals).indexOf v)) ∧
      ∀ v ∈ vals, (npUnique vals)[(npUnique vals).indexOf v]? = some v :=
  c1_train_mode_encodes_sorted_rank (Frame.mk [("age", [30, 20, 30])]) []
    ["age"] [("age", [20, 30])] (by decide) "age" (by decide)

/-- C2: in test mode every value absent from the vocabulary receives the
reserved local index `len(unique)` and its `check_unknown` mask bit is set;
when every value of the column is unseen, encoding succeeds and every row
receives the reserved index. -/
theorem c2_test_mode_unknown_reserved_slot (values unique : List Value) :
    (∀ (i : Nat) (v : Value), values[i]? = some v → v ∉ unique →
      ∃ idxs, Dataset.sparse_indices values unique "test" = .ok idxs ∧
        idxs[i]? = some unique.length ∧
        (Dataset.check_unknown values unique).2[i]? = some true) ∧
    ((∀ v ∈ values, v ∉ unique) →
      Dataset.sparse_indices values unique "test" =
        .ok (values.map (fun _ => unique.length))) := by
  constructor
  · intro i v hv hnot
    have hmask : (Dataset.check_unknown values unique).2[i]? = some true := by
      simp only [Dataset.check_unknown, List.getElem?_map, hv, Option.map_some']
      simp [hnot]
    refine ⟨_, sparse_indices_test values unique, ?_, hmask⟩
    exact List.getElem?_zipWith_eq_some.mpr ⟨v, true, hv, hmask, rfl⟩
  · intro hall
    rw [sparse_indices_test]
    congr 1
    simp only [Dataset.check_unknown]
    rw [List.zipWith_map_right, List.zipWith_same]
    refine List.map_congr_left ?_
    intro v hv
    simp [hall v hv]

theorem c2_test_mode_unknown_reserved_slot_witness :
    (∀ (i : Nat) (v : Value), [7, 9][i]? = some v → v ∉ ([1, 3] : List Value) →
      ∃ idxs, Dataset.sparse_indices [7, 9] [1, 3] "test" = .ok idxs ∧
        idxs[i]? = some ([1, 3] : List Value).length ∧
        (Dataset.check_unknown [7, 9] [1, 3]).2[i]? = some true) ∧
    ((∀ v ∈ ([7, 9] : List Value), v ∉ ([1, 3] : List Value)) →
      Dataset.sparse_indices [7, 9] [1, 3] "test" =
        .ok (([7, 9] : List Value).map (fun _ => ([1, 3] : List Value).length))) :=
  c2_test_mode_unknown_reserved_slot [7, 9] [1, 3]

/-- C3: the offset table starts at 0, has one entry per sparse column plus
a sentinel, and consecutive entries differ by the column's vocabulary size
plus one exactly in the feat variant (the reserved unknown slot) and plus
zero in the pure variant. -/
theorem c3_offset_table_invariant (variant : Variant) (suv : SparseUniqueVals)
    (sparse_col : List String) (offs : List Nat)
    (h : Dataset.get_feature_offset variant suv sparse_col = .ok offs) :
    offs[0]? = some 0 ∧ offs.length = sparse_col.length + 1 ∧
    ∀ (i : Nat) (col : String), sparse_col[i]? = some col →
      ∃ u oi, svGet suv col = some u ∧ offs[i]? = some oi ∧
        offs[i + 1]? =
          some (oi + (u.length + (if variant = Variant.feat then 1 else 0))) := by
  refine ⟨get_feature_offset_zero variant suv sparse_col offs h,
          get_feature_offset_length variant suv sparse_col offs h, ?_⟩
  intro i col hcol
  exact get_feature_offset_succ variant suv sparse_col offs h i col hcol

theorem c3_offset_table_invariant_witness :
    ([0, 3, 6] : List Nat)[0]? = some 0 ∧
    ([0, 3, 6] : List Nat).length = ["user", "item"].length + 1 ∧
    ∀ (i : Nat) (col : String), ["user", "item"][i]? = some col →
      ∃ u oi, svGet [("user", [1, 2]), ("item", [10, 20])] col = some u ∧
        ([0, 3, 6] : List Nat)[i]? = some oi ∧
        ([0, 3, 6] : List Nat)[i + 1]? =
          some (oi + (u.length + (if Variant.feat = Variant.feat then 1 else 0))) :=
  c3_offset_table_invariant Variant.feat [("user", [1, 2]), ("item", [10, 20])]
    ["user", "item"] [0, 3, 6] (by decide)

/-- C5 counterexample: in train mode a value absent from the vocabulary
does NOT make `_sparse_indices` fail — at `values = [5]`,
`unique = [1, 3]` the encoder returns the insertion index `.ok [2]`
instead of any error. -/
theorem c5_counterexample_train_mode_no_error :
    (5 : Value) ∉ ([1, 3] : List Value) ∧
    Dataset.sparse_indices [5] [1, 3] "train" = .ok [2] := by
  exact ⟨by decide, by decide⟩

/-- C5 amended: in train mode `_sparse_indices` performs no membership
check at all — it always succeeds and returns the raw `searchsorted`
insertion position of every value, vocabulary member or not; no
`UnknownValueError` exists in the code and no error is ever raised in
train mode. -/
theorem c5_amended_train_mode_unchecked (values unique : List Value) :
    Dataset.sparse_indices values unique "train" =
      .ok (values.map (searchsorted unique)) := by
  have h1 : ("train" : String) ≠ "test" := by decide
  simp [Dataset.sparse_indices, h1]

/-- C6: `_sparse_indices` fails with the invalid-mode `ValueError` exactly
when the mode is neither "train" nor "test"; for the two valid modes it
always returns a result and never raises this error. -/
theorem c6_invalid_mode_error_iff (values unique : List Value) (mode : String) :
    (Dataset.sparse_indices values unique mode = .error DataError.invalidMode ↔
      mode ≠ "train" ∧ mode ≠ "test") ∧
    ((mode = "train" ∨ mode = "test") →
      ∃ r, Dataset.sparse_indices values unique mode = .ok r) := by
  constructor
  · constructor
    · intro h
      exact (sparse_indices_error_invalidMode values unique mode _ h).2
    · intro ⟨h1, h2⟩
      simp [Dataset.sparse_indices, if_neg h2, if_neg h1]
  · intro h
    rcases h with rfl | rfl
    · exact ⟨_, sparse_indices_train values unique⟩
    · exact ⟨_, sparse_indices_test values unique⟩

theorem c6_invalid_mode_error_iff_witness :
    (Dataset.sparse_indices [1] [1] "predict" = .error DataError.invalidMode ↔
      ("predict" : String) ≠ "train" ∧ ("predict" : String) ≠ "test") ∧
    ((("predict" : String) = "train" ∨ ("predict" : String) = "test") →
      ∃ r, Dataset.sparse_indices [1] [1] "predict" = .ok r) :=
  c6_invalid_mode_error_iff [1] [1] "predict"

/-- C4: when the vocabulary registry was built from the same table
(`_set_sparse_unique_vals` on identical data and columns), every entry of
the train-mode sparse index matrix of `_get_sparse_indices_matrix` in
column i lies in `[OffsetTable[i], OffsetTable[i+1])`, and globally every
entry lies below `OffsetTable[-1]` (entries are naturals, so `0 ≤ entry`
holds by type). -/
theorem c4_matrix_entries_in_offset_ranges
    (variant : Variant) (data : Frame) (suv0 suv : SparseUniqueVals)
    (ui0 ii0 : Option (List Nat)) (sparse_col : List String)
    (st' : DatasetState) (m : List (List Nat)) (offs : List Nat)
    (hset : Dataset.set_sparse_unique_vals data suv0 sparse_col = .ok suv)
    (hmat : Dataset.get_sparse_indices_matrix variant ⟨suv, ui0, ii0⟩ data
      sparse_col "train" = .ok (st', m))
    (hoff : Dataset.get_feature_offset variant suv sparse_col = .ok offs) :
    (∀ (i : Nat) (colv : List Nat), m[i]? = some colv →
      ∃ oi oi1, offs[i]? = some oi ∧ offs[i + 1]? = some oi1 ∧
        ∀ x ∈ colv, oi ≤ x ∧ x < oi1) ∧
    ∃ total, offs[sparse_col.length]? = some total ∧
      ∀ (i : Nat) (colv : List Nat), m[i]? = some colv →
        ∀ x ∈ colv, x < total := by
  obtain ⟨colsIdx, ui, ii, offs2, hloop, hoffs2, hst, hm⟩ :=
    matrix_ok variant ⟨suv, ui0, ii0⟩ data sparse_col "train" st' m hmat
  have hoe : offs2 = offs := Except.ok.inj (hoffs2.symm.trans hoff)
  rw [hoe] at hoffs2 hm
  have key : ∀ (i : Nat) (colv : List Nat), m[i]? = some colv →
      ∃ oi oi1, offs[i]? = some oi ∧ offs[i + 1]? = some oi1 ∧
        i < sparse_col.length ∧ ∀ x ∈ colv, oi ≤ x ∧ x < oi1 := by
    intro i colv hmi
    rw [hm] at hmi
    obtain ⟨enc, oi, henc, hoi, hfx⟩ := List.getElem?_zipWith_eq_some.mp hmi
    have hilen : i < colsIdx.length := (List.getElem?_eq_some.mp henc).1
    have hlen := loop_length _ _ _ _ _ _ _ _ _ hloop
    have hci : i < sparse_col.length := hlen ▸ hilen
    obtain ⟨col, hcol⟩ : ∃ col, sparse_col[i]? = some col :=
      ⟨_, List.getElem?_eq_getElem hci⟩
    obtain ⟨colvals, uvals, enc', g1, g2, g3, g4⟩ :=
      loop_getElem _ _ _ _ _ _ _ _ _ hloop i col hcol
    have henc' : enc' = enc := Option.some.inj (g4.symm.trans henc)
    obtain ⟨vals, hv, hg⟩ := setSUV_get_of_mem data suv0 sparse_col suv hset
      col (List.getElem?_mem hcol)
    have hvals : colvals = vals := Option.some.inj (g1.symm.trans hv)
    have huvals : uvals = npUnique vals := Option.some.inj (g2.symm.trans hg)
    obtain ⟨u2, oi2, hu2, hoi2, hoi12⟩ :=
      get_feature_offset_succ variant suv sparse_col offs hoff i col hcol
    have hu2e : u2 = npUnique vals := Option.some.inj (hu2.symm.trans hg)
    have hoie : oi2 = oi := Option.some.inj (hoi2.symm.trans hoi)
    rw [hoie, hu2e] at hoi12
    refine ⟨oi, _, hoi, hoi12, hci, ?_⟩
    intro x hx
    rw [← hfx] at hx
    obtain ⟨e, he, rfl⟩ := List.mem_map.mp hx
    have hencv : enc' = colvals.map (searchsorted uvals) :=
      Except.ok.inj (g3.symm.trans (sparse_indices_train colvals uvals))
    rw [henc'] at hencv
    rw [hencv] at he
    obtain ⟨v0, hv0, rfl⟩ := List.mem_map.mp he
    have hvm : v0 ∈ npUnique vals := by
      rw [mem_npUnique]
      exact hvals ▸ hv0
    have hlt : searchsorted uvals v0 < (npUnique vals).length := by
      rw [huvals]
      exact searchsorted_lt_length _ (npUnique_pairwise vals) v0 hvm
    constructor
    · exact Nat.le_add_left oi _
    · omega
  constructor
  · intro i colv hmi
    obtain ⟨oi, oi1, h1, h2, _, h3⟩ := key i colv hmi
    exact ⟨oi, oi1, h1, h2, h3⟩
  · obtain ⟨sizes, hsz, hscan⟩ :=
      get_feature_offset_ok variant suv sparse_col offs hoff
    have hlen : offs.length = sparse_col.length + 1 :=
      get_feature_offset_length variant suv sparse_col offs hoff
    obtain ⟨total, htot⟩ : ∃ total, offs[sparse_col.length]? = some total :=
      ⟨_, List.getElem?_eq_getElem (by omega)⟩
    refine ⟨total, htot, ?_⟩
    intro i colv hmi x hx
    obtain ⟨oi, oi1, h1, h2, hci, h3⟩ := key i colv hmi
    have hx2 := (h3 x hx).2
    have hmono : oi1 ≤ total := by
      rw [hscan] at h2 htot
      exact scanl_add_mono 0 sizes (i + 1) sparse_col.length oi1 total
        (by omega) h2 htot
    omega

theorem c4_matrix_entries_in_offset_ranges_witness :
    ((∀ (i : Nat) (colv : List Nat),
        ([[1, 0, 1], [3, 4, 3]] : List (List Nat))[i]? = some colv →
        ∃ oi oi1, ([0, 3, 6] : List Nat)[i]? = some oi ∧
          ([0, 3, 6] : List Nat)[i + 1]? = some oi1 ∧
          ∀ x ∈ colv, oi ≤ x ∧ x < oi1) ∧
      ∃ total, ([0, 3, 6] : List Nat)[["user", "item"].length]? = some total ∧
        ∀ (i : Nat) (colv : List Nat),
          ([[1, 0, 1], [3, 4, 3]] : List (List Nat))[i]? = some colv →
          ∀ x ∈ colv, x < total) :=
  c4_matrix_entries_in_offset_ranges Variant.feat
    (Frame.mk [("user", [2, 1, 2]), ("item", [10, 20, 10]), ("label", [1, 0, 1])])
    [] [("user", [1, 2]), ("item", [10, 20])] none none ["user", "item"]
    ⟨[("user", [1, 2]), ("item", [10, 20])], some [1, 0, 1], some [0, 1, 0]⟩
    [[1, 0, 1], [3, 4, 3]] [0, 3, 6] (by decide) (by decide) (by decide)

/-- C10: when "user" and "item" occur among the sparse columns, the
standalone index vectors stored in the state by
`_get_sparse_indices_matrix` hold the column-local vocabulary ranks (plain
`searchsorted` against the column's vocabulary, no offset), whereas the
"user" and "item" columns of the returned matrix are those same ranks with
the column's base offset added. -/
theorem c10_user_item_vectors_local_matrix_offset
    (variant : Variant) (suv : SparseUniqueVals) (ui0 ii0 : Option (List Nat))
    (data : Frame) (sparse_col : List String) (st' : DatasetState)
    (m : List (List Nat)) (iu it : Nat)
    (hmat : Dataset.get_sparse_indices_matrix variant ⟨suv, ui0, ii0⟩ data
      sparse_col "train" = .ok (st', m))
    (hu : sparse_col[iu]? = some "user") (hi : sparse_col[it]? = some "item") :
    ∃ uvals uu ivals iiu offs ou oi,
      data.getCol "user" = some uvals ∧ svGet suv "user" = some uu ∧
      data.getCol "item" = some ivals ∧ svGet suv "item" = some iiu ∧
      Dataset.get_feature_offset variant suv sparse_col = .ok offs ∧
      offs[iu]? = some ou ∧ offs[it]? = some oi ∧
      st'.user_indices = some (uvals.map (searchsorted uu)) ∧
      st'.item_indices = some (ivals.map (searchsorted iiu)) ∧
      m[iu]? = some ((uvals.map (searchsorted uu)).map (fun x => x + ou)) ∧
      m[it]? = some ((ivals.map (searchsorted iiu)).map (fun x => x + oi)) := by
  obtain ⟨colsIdx, ui, ii, offs, hloop, hoffs, hst, hm⟩ :=
    matrix_ok variant ⟨suv, ui0, ii0⟩ data sparse_col "train" st' m hmat
  obtain ⟨uvals, uu, encU, hu1, hu2, hu3, hu4⟩ :=
    loop_user_mem _ _ _ _ _ _ _ _ _ hloop (List.getElem?_mem hu)
  obtain ⟨ivals, iiu, encI, hi1, hi2, hi3, hi4⟩ :=
    loop_item_mem _ _ _ _ _ _ _ _ _ hloop (List.getElem?_mem hi)
  have hencU : encU = uvals.map (searchsorted uu) :=
    Except.ok.inj (hu3.symm.trans (sparse_indices_train uvals uu))
  have hencI : encI = ivals.map (searchsorted iiu) :=
    Except.ok.inj (hi3.symm.trans (sparse_indices_train ivals iiu))
  obtain ⟨cvU, uvU, encU', gu1, gu2, gu3, gu4⟩ :=
    loop_getElem _ _ _ _ _ _ _ _ _ hloop iu "user" hu
  obtain ⟨cvI, uvI, encI', gi1, gi2, gi3, gi4⟩ :=
    loop_getElem _ _ _ _ _ _ _ _ _ hloop it "item" hi
  have hcvU : cvU = uvals := Option.some.inj (gu1.symm.trans hu1)
  have huvU : uvU = uu := Option.some.inj (gu2.symm.trans hu2)
  have hencU' : encU' = uvals.map (searchsorted uu) := by
    rw [hcvU, huvU] at gu3
    exact Except.ok.inj (gu3.symm.trans (sparse_indices_train uvals uu))
  have hcvI : cvI = ivals := Option.some.inj (gi1.symm.trans hi1)
  have huvI : uvI = iiu := Option.some.inj (gi2.symm.trans hi2)
  have hencI' : encI' = ivals.map (searchsorted iiu) := by
    rw [hcvI, huvI] at gi3
    exact Except.ok.inj (gi3.symm.trans (sparse_indices_train ivals iiu))
  have hiulen : iu < colsIdx.length := by
    rw [loop_length _ _ _ _ _ _ _ _ _ hloop]
    exact (List.getElem?_eq_some.mp hu).1
  have hitlen : it < colsIdx.length := by
    rw [loop_length _ _ _ _ _ _ _ _ _ hloop]
    exact (List.getElem?_eq_some.mp hi).1
  have holen : offs.length = sparse_col.length + 1 :=
    get_feature_offset_length variant suv sparse_col offs hoffs
  have hlenc : colsIdx.length = sparse_col.length :=
    loop_length _ _ _ _ _ _ _ _ _ hloop
  obtain ⟨ou, hou⟩ : ∃ ou, offs[iu]? = some ou :=
    ⟨_, List.getElem?_eq_getElem (by omega)⟩
  obtain ⟨oi, hoi⟩ : ∃ oi, offs[it]? = some oi :=
    ⟨_, List.getElem?_eq_getElem (by omega)⟩
  refine ⟨uvals, uu, ivals, iiu, offs, ou, oi, hu1, hu2, hi1, hi2, hoffs,
    hou, hoi, ?_, ?_, ?_, ?_⟩
  · rw [hst, hu4, hencU]
  · rw [hst, hi4, hencI]
  · rw [hm]
    refine List.getElem?_zipWith_eq_some.mpr ⟨encU', ou, gu4, hou, ?_⟩
    rw [hencU']
  · rw [hm]
    refine List.getElem?_zipWith_eq_some.mpr ⟨encI', oi, gi4, hoi, ?_⟩
    rw [hencI']

theorem c10_user_item_vectors_local_matrix_offset_witness :
    ∃ uvals uu ivals iiu offs ou oi,
      (Frame.mk [("user", [2, 1, 2]), ("item", [10, 20, 10]),
        ("label", [1, 0, 1])]).getCol "user" = some uvals ∧
      svGet [("user", [1, 2]), ("item", [10, 20])] "user" = some uu ∧
      (Frame.mk [("user", [2, 1, 2]), ("item", [10, 20, 10]),
        ("label", [1, 0, 1])]).getCol "item" = some ivals ∧
      svGet [("user", [1, 2]), ("item", [10, 20])] "item" = some iiu ∧
      Dataset.get_feature_offset Variant.feat
        [("user", [1, 2]), ("item", [10, 20])] ["user", "item"] = .ok offs ∧
      offs[0]? = some ou ∧ offs[1]? = some oi ∧
      (DatasetState.mk [("user", [1, 2]), ("item", [10, 20])]
        (some [1, 0, 1]) (some [0, 1, 0])).user_indices =
        some (uvals.map (searchsorted uu)) ∧
      (DatasetState.mk [("user", [1, 2]), ("item", [10, 20])]
        (some [1, 0, 1]) (some [0, 1, 0])).item_indices =
        some (ivals.map (searchsorted iiu)) ∧
      ([[1, 0, 1], [3, 4, 3]] : List (List Nat))[0]? =
        some ((uvals.map (searchsorted uu)).map (fun x => x + ou)) ∧
      ([[1, 0, 1], [3, 4, 3]] : List (List Nat))[1]? =
        some ((ivals.map (searchsorted iiu)).map (fun x => x + oi)) :=
  c10_user_item_vectors_local_matrix_offset Variant.feat
    [("user", [1, 2]), ("item", [10, 20])] none none
    (Frame.mk [("user", [2, 1, 2]), ("item", [10, 20, 10]), ("label", [1, 0, 1])])
    ["user", "item"]
    ⟨[("user", [1, 2]), ("item", [10, 20])], some [1, 0, 1], some [0, 1, 0]⟩
    [[1, 0, 1], [3, 4, 3]] 0 1 (by decide) (by decide) (by decide)

theorem build_no_schema_pure (st : DatasetState) (data : Frame)
    (sparse_col : List String)
    (hall : "user" ∈ data.columns ∧ "item" ∈ data.columns ∧
      "label" ∈ data.columns) :
    DatasetPure.build_trainset st data sparse_col ≠
      .error DataError.schemaError := by
  intro h
  have hcheck : Dataset.check_col_names data = .ok () := by
    simp [Dataset.check_col_names, if_pos hall]
  simp only [DatasetPure.build_trainset, hcheck] at h
  split at h
  · rename_i e hset
    obtain ⟨c, hc⟩ := setSUV_error_keyError _ _ _ _ hset
    have h2 := Except.error.inj h
    rw [hc] at h2
    exact DataError.noConfusion h2
  rename_i suv hset
  split at h
  · rename_i e hmat
    have he : e = DataError.schemaError := Except.error.inj h
    rcases matrix_error _ _ _ _ _ _ (he ▸ hmat) with h1 | ⟨c, h1⟩ <;>
      exact DataError.noConfusion h1
  rename_i st2 mm hmat
  split at h
  · exact DataError.noConfusion (Except.error.inj h)
  · exact Except.noConfusion h

theorem build_no_schema_feat (st : DatasetState) (data : Frame)
    (sparse_col : List String)
    (dense_col user_col item_col : Option (List String)) (neg : Bool)
    (hall : "user" ∈ data.columns ∧ "item" ∈ data.columns ∧
      "label" ∈ data.columns) :
    DatasetFeat.build_trainset st data sparse_col dense_col user_col item_col
      neg ≠ .error DataError.schemaError := by
  intro h
  have hcheck : Dataset.check_col_names data = .ok () := by
    simp [Dataset.check_col_names, if_pos hall]
  simp only [DatasetFeat.build_trainset, hcheck] at h
  split at h
  · rename_i e hset
    obtain ⟨c, hc⟩ := setSUV_error_keyError _ _ _ _ hset
    have h2 := Except.error.inj h
    rw [hc] at h2
    exact DataError.noConfusion h2
  rename_i suv hset
  split at h
  · rename_i e hmat
    have he : e = DataError.schemaError := Except.error.inj h
    rcases matrix_error _ _ _ _ _ _ (he ▸ hmat) with h1 | ⟨c, h1⟩ <;>
      exact DataError.noConfusion h1
  rename_i st2 mm hmat
  split at h
  · rename_i e hdense
    have he : e = DataError.schemaError := Except.error.inj h
    obtain ⟨c, hc⟩ := feat_dense_error _ _ _ (he ▸ hdense)
    exact DataError.noConfusion hc
  rename_i dv hdense
  split at h
  · exact DataError.noConfusion (Except.error.inj h)
  · exact Except.noConfusion h

/-- C7: both `DatasetPure.build_trainset` and `DatasetFeat.build_trainset`
fail with the schema `KeyError` of `_check_col_names` exactly when one of
the "user", "item", "label" columns is absent; the validation error takes
precedence over everything later in the pipeline (when the three columns
are present, no later stage can produce this error). -/
theorem c7_schema_error_iff_missing_required_column (st : DatasetState)
    (data : Frame) (sparse_col : List String)
    (dense_col user_col item_col : Option (List String)) (neg : Bool) :
    (DatasetPure.build_trainset st data sparse_col =
        .error DataError.schemaError ↔
      ¬ ("user" ∈ data.columns ∧ "item" ∈ data.columns ∧
         "label" ∈ data.columns)) ∧
    (DatasetFeat.build_trainset st data sparse_col dense_col user_col item_col
        neg = .error DataError.schemaError ↔
      ¬ ("user" ∈ data.columns ∧ "item" ∈ data.columns ∧
         "label" ∈ data.columns)) := by
  constructor
  · constructor
    · intro h hall
      exact build_no_schema_pure st data sparse_col hall h
    · intro hmiss
      have hcheck : Dataset.check_col_names data = .error .schemaError := by
        simp only [Dataset.check_col_names, if_neg hmiss]
      simp only [DatasetPure.build_trainset, hcheck]
  · constructor
    · intro h hall
      exact build_no_schema_feat st data sparse_col dense_col user_col
        item_col neg hall h
    · intro hmiss
      have hcheck : Dataset.check_col_names data = .error .schemaError := by
        simp only [Dataset.check_col_names, if_neg hmiss]
      simp only [DatasetFeat.build_trainset, hcheck]

theorem c7_schema_error_iff_missing_required_column_witness :
    (DatasetPure.build_trainset initState (Frame.mk [("user", [1])]) ["user"] =
        .error DataError.schemaError ↔
      ¬ ("user" ∈ (Frame.mk [("user", [1])]).columns ∧
         "item" ∈ (Frame.mk [("user", [1])]).columns ∧
         "label" ∈ (Frame.mk [("user", [1])]).columns)) ∧
    (DatasetFeat.build_trainset initState (Frame.mk [("user", [1])]) ["user"]
        none none none false = .error DataError.schemaError ↔
      ¬ ("user" ∈ (Frame.mk [("user", [1])]).columns ∧
         "item" ∈ (Frame.mk [("user", [1])]).columns ∧
         "label" ∈ (Frame.mk [("user", [1])]).columns)) :=
  c7_schema_error_iff_missing_required_column initState
    (Frame.mk [("user", [1])]) ["user"] none none none false

/-- C8: running `DatasetFeat.build_trainset` a second time with identical
input arguments, starting from the class-level state the first run left
behind, returns exactly the first run's result: the same `TransformedSet`
(user indices, item indices, labels, sparse index matrix, dense values),
the same `DataInfo`, and even the same final state. -/
theorem c8_feat_build_trainset_idempotent (st : DatasetState) (data : Frame)
    (sparse_col : List String)
    (dense_col user_col item_col : Option (List String)) (neg : Bool)
    (st1 : DatasetState) (ts1 : TransformedSet) (di1 : DataInfo)
    (h : DatasetFeat.build_trainset st data sparse_col dense_col user_col
      item_col neg = .ok (st1, ts1, di1)) :
    DatasetFeat.build_trainset st1 data sparse_col dense_col user_col item_col
      neg = .ok (st1, ts1, di1) := by
  obtain ⟨suv, mm, dv, labels, hcheck, hset, hmat, hdense, hlab, hts, hdi⟩ :=
    feat_build_ok st data sparse_col dense_col user_col item_col neg
      st1 ts1 di1 h
  obtain ⟨colsIdx, ui, ii, offs, hloop, hoffs, hst, hm⟩ :=
    matrix_ok Variant.feat { st with sparse_unique_vals := suv } data
      sparse_col "train" st1 mm hmat
  have hsuv1 : st1.sparse_unique_vals = suv := by rw [hst]
  have hui1 : st1.user_indices = ui := by rw [hst]
  have hii1 : st1.item_indices = ii := by rw [hst]
  have hset2 : Dataset.set_sparse_unique_vals data st1.sparse_unique_vals
      sparse_col = .ok st1.sparse_unique_vals := by
    rw [hsuv1]
    exact setSUV_idem data st.sparse_unique_vals sparse_col suv hset
  have hloop2 : Dataset.sparse_cols_loop st1.sparse_unique_vals data "train"
      sparse_col st1.user_indices st1.item_indices = .ok (colsIdx, ui, ii) := by
    rw [hsuv1, hui1, hii1]
    have h2 := loop_shift _ _ _ _ _ _ ui ii _ _ _ hloop
    rw [ite_self, ite_self] at h2
    exact h2
  have hoffs2 : Dataset.get_feature_offset Variant.feat st1.sparse_unique_vals
      sparse_col = .ok offs := by
    rw [hsuv1]
    exact hoffs
  have hmat2 : Dataset.get_sparse_indices_matrix Variant.feat
      (DatasetState.mk st1.sparse_unique_vals st1.user_indices
        st1.item_indices) data sparse_col "train" = .ok (st1, mm) := by
    have h3 := matrix_ok_intro Variant.feat st1 data sparse_col "train"
      colsIdx ui ii offs hloop2 hoffs2
    have hst1 : ({ st1 with user_indices := ui, item_indices := ii } :
        DatasetState) = st1 := by
      rw [← hui1, ← hii1]
    rw [hst1, ← hm] at h3
    exact h3
  simp only [DatasetFeat.build_trainset, hcheck, hset2, hmat2, hdense, hlab]
  rw [hts, hdi]
  cases neg <;> rfl

theorem c8_feat_build_trainset_idempotent_witness :
    DatasetFeat.build_trainset
      ⟨[("user", [1, 2]), ("item", [10, 20])], some [1, 0, 1], some [0, 1, 0]⟩
      (Frame.mk [("user", [2, 1, 2]), ("item", [10, 20, 10]),
        ("label", [1, 0, 1])])
      ["user", "item"] none none none false =
      .ok (⟨[("user", [1, 2]), ("item", [10, 20])], some [1, 0, 1],
            some [0, 1, 0]⟩,
           ⟨some [1, 0, 1], some [0, 1, 0], [1, 0, 1],
            some [[1, 0, 1], [3, 4, 3]], none⟩,
           DataInfo.mk (col_name2index ["user", "item"] none none none)
             ((Frame.mk [("user", [2, 1, 2]), ("item", [10, 20, 10]),
               ("label", [1, 0, 1])]).selectCols ["user", "item", "label"])
             none none) :=
  c8_feat_build_trainset_idempotent initState
    (Frame.mk [("user", [2, 1, 2]), ("item", [10, 20, 10]),
      ("label", [1, 0, 1])])
    ["user", "item"] none none none false
    ⟨[("user", [1, 2]), ("item", [10, 20])], some [1, 0, 1], some [0, 1, 0]⟩
    ⟨some [1, 0, 1], some [0, 1, 0], [1, 0, 1],
     some [[1, 0, 1], [3, 4, 3]], none⟩
    (DataInfo.mk (col_name2index ["user", "item"] none none none)
      ((Frame.mk [("user", [2, 1, 2]), ("item", [10, 20, 10]),
        ("label", [1, 0, 1])]).selectCols ["user", "item", "label"])
      none none)
    (by decide)

/-- C9: on a well-formed training table, `DatasetPure.build_trainset` does
compute a 3-entry offset table internally (2 sparse columns plus the
leading 0 sentinel), but the `DataInfo` it returns is the literal
placeholder `DataInfo(...)` of dataset.py:111 — it records no sparse
columns at all, contradicting the claim that its sparse columns are
exactly user and item. -/
theorem c9_pure_build_datainfo_is_placeholder :
    DatasetPure.build_trainset initState
      (Frame.mk [("user", [2, 1, 2]), ("item", [10, 20, 10]),
        ("label", [1, 0, 1])]) ["user", "item"] =
      .ok (⟨[("user", [1, 2]), ("item", [10, 20])], some [1, 0, 1],
            some [0, 1, 0]⟩,
           ⟨some [1, 0, 1], some [0, 1, 0], [1, 0, 1], none, none⟩,
           DataInfo.ellipsis) ∧
    DataInfo.sparseColumns DataInfo.ellipsis = [] ∧
    DataInfo.sparseColumns DataInfo.ellipsis ≠ ["user", "item"] ∧
    Dataset.get_feature_offset Variant.pure
      [("user", [1, 2]), ("item", [10, 20])] ["user", "item"] =
      .ok [0, 2, 4] ∧
    ([0, 2, 4] : List Nat).length = 3 :=
  ⟨by decide, rfl, by decide, by decide, rfl⟩

example : npUnique [3, 1, 3, 2] = [1, 2, 3] := by decide

example : searchsorted [1, 2, 3] 2 = 1 := by decide

example : Dataset.sparse_indices [2] [1, 2, 3] "train" = .ok [1] := by decide

example : Dataset.sparse_indices [5] [1, 2, 3] "test" = .ok [3] := by decide

example : Dataset.sparse_indices [5] [1, 3] "train" = .ok [2] := by decide

example : Dataset.sparse_indices [1] [1] "predict" = .error .invalidMode := by
  decide

end LibRec
